import Mathlib

/-!
Shallow embedding of the virtualization list component of this repository
(src/src/List.tsx, plus the Vue ListItem binding in src/unnamed/part_000),
with theorems settling the spec claims about it.

JavaScript numbers are modelled as `Int`: every claim here is about ordering,
sign and additive arithmetic, which behave identically over the integers.
Elements (DOM nodes) are modelled as `Nat` identifiers; WeakMaps keyed by
elements become association lists / key lists.
-/

/-- The update messages sent to the virtual store (the update-message protocol).
Only the constructors emitted by List.tsx are modelled. -/
inductive Msg where
  | handleScroll (offset : Int)
  | handleItemIntersection (index : Int) (offset : Int)
  | updateViewportSize (width height : Int)
  | updateItemSizes (indexes : List Int) (sizes : List Int)
  | updateCacheLength (length : Int)
deriving DecidableEq, Repr

/-- The scroll assignment issued by the imperative handle: exactly one of the
host container fields `scrollLeft` / `scrollTop` is written. -/
structure ScrollAssignment where
  scrollLeft : Option Int
  scrollTop : Option Int
deriving DecidableEq, Repr

/-- `scrollTo(index)` from the imperative handle (List.tsx lines 380-397),
as a function of the values it reads: `store._getItemOffset(index)`,
`scrollSize`, `viewportSize`, and the `reverse` / `horizontal` props.

```
let offset = store._getItemOffset(index);
if (scrollSize - (offset + viewportSize) <= 0) { offset = scrollSize - viewportSize; }
if (reverse) { offset *= -1; }
if (isHorizontal) { root.scrollLeft = offset; } else { root.scrollTop = offset; }
``` -/
def scrollTo (itemOffset scrollSize viewportSize : Int) (reverse isHorizontal : Bool) :
    ScrollAssignment :=
  let offset := if scrollSize - (itemOffset + viewportSize) ≤ 0
    then scrollSize - viewportSize else itemOffset
  let offset := if reverse then -offset else offset
  if isHorizontal then ⟨some offset, none⟩ else ⟨none, some offset⟩

/-- The jump layout effect's start correction (List.tsx lines 343-357):
`jump._start` is added to the native scroll offset unless it is zero (falsy)
or the window starts at index 0 with the native offset exactly 0.
Returns the new native scroll offset of the host container. -/
def applyStartJump (scrollOffset jumpStart startIndex : Int) : Int :=
  if jumpStart ≠ 0 ∧ ¬(startIndex = 0 ∧ scrollOffset = 0)
  then scrollOffset + jumpStart else scrollOffset

/-- The jump layout effect's end correction (List.tsx lines 358-364):
`jump._end` is added when it is nonzero (truthy), the window does not start at
index 0, and `endIndex - (count - 1) === 0`. `afterStart` is the offset after
the start correction ran. -/
def applyEndJump (afterStart jumpEnd startIndex endIndex count : Int) : Int :=
  if jumpEnd ≠ 0 ∧ ¬(startIndex = 0) ∧ endIndex - (count - 1) = 0
  then afterStart + jumpEnd else afterStart

/-- The whole jump layout effect (List.tsx lines 339-366): the start correction
runs first (its condition reads the native offset before any write), then the
end correction. -/
def jumpEffect (scrollOffset jumpStart jumpEnd startIndex endIndex count : Int) : Int :=
  applyEndJump (applyStartJump scrollOffset jumpStart startIndex) jumpEnd startIndex endIndex count

/-- C1: for every index given to the imperative `scrollTo(index)` handle, the
issued offset is `getItemOffset(index)`, replaced by
`totalSize - viewportExtent` exactly when `offset + viewportExtent >= totalSize`
(equivalently `min offset (totalSize - viewportExtent)`), negated when the
layout is reversed, and assigned to `scrollLeft` when horizontal and to
`scrollTop` when vertical. -/
theorem scrollTo_clamps_and_signs (itemOffset scrollSize viewportSize : Int)
    (reverse isHorizontal : Bool) :
    scrollTo itemOffset scrollSize viewportSize reverse isHorizontal =
      (let clamped := if itemOffset + viewportSize ≥ scrollSize
        then scrollSize - viewportSize else itemOffset
      let signed := if reverse then -clamped else clamped
      if isHorizontal then ⟨some signed, none⟩ else ⟨none, some signed⟩) ∧
    (if itemOffset + viewportSize ≥ scrollSize
        then scrollSize - viewportSize else itemOffset) =
      min itemOffset (scrollSize - viewportSize) := by
  constructor
  · unfold scrollTo
    have hcond : (scrollSize - (itemOffset + viewportSize) ≤ 0) ↔
        (itemOffset + viewportSize ≥ scrollSize) := by constructor <;> intro h <;> omega
    simp only [hcond]
  · rcases le_or_lt itemOffset (scrollSize - viewportSize) with h | h
    · rw [min_eq_left h]
      split
      · omega
      · rfl
    · rw [min_eq_right (by omega)]
      split
      · rfl
      · omega

/-- C2: the start correction adds `jump.start` to the native scroll offset,
except when the rendered window includes index 0 (`startIndex = 0`) and the
native offset is exactly 0, in which case the offset is left unchanged.
(When `jump.start` is 0 the code skips the write, which coincides with
adding 0.) -/
theorem startJump_applied_unless_at_start_edge (scrollOffset jumpStart startIndex : Int) :
    applyStartJump scrollOffset jumpStart startIndex =
      if startIndex = 0 ∧ scrollOffset = 0 then scrollOffset
      else scrollOffset + jumpStart := by
  unfold applyStartJump
  by_cases hj : jumpStart = 0
  · subst hj; split <;> split <;> omega
  · by_cases hs : startIndex = 0 ∧ scrollOffset = 0
    · simp [hs]
    · simp [hs, hj]

/-- C3: the end correction adds `jump.end` to the native scroll offset exactly
when the rendered window includes the last index (`endIndex = count - 1`) and
excludes the first (`startIndex ≠ 0`); in every other window configuration the
offset is unchanged. (When `jump.end` is 0 the code skips the write, which
coincides with adding 0.) -/
theorem endJump_applied_only_at_end_window (afterStart jumpEnd startIndex endIndex count : Int) :
    applyEndJump afterStart jumpEnd startIndex endIndex count =
      if endIndex = count - 1 ∧ startIndex ≠ 0 then afterStart + jumpEnd
      else afterStart := by
  unfold applyEndJump
  by_cases hj : jumpEnd = 0
  · subst hj; split <;> split <;> omega
  · by_cases he : endIndex = count - 1
    · by_cases hs : startIndex = 0
      · simp [he, hs]
      · have : endIndex - (count - 1) = 0 := by omega
        simp [he, hs, hj, this]
    · have : ¬(endIndex - (count - 1) = 0) := by omega
      simp [he, this, hj]

/-- Lookup of an element in the `mountedIndexes` WeakMap, modelled as an
association list from element identifier to item index. -/
def mountedGet (mounted : List (Nat × Int)) (target : Nat) : Option Int :=
  (mounted.find? (fun p => p.1 = target)).map (fun p => p.2)

/-- One entry delivered to the ResizeObserver callback: either the wrapper
element (viewport) or some other observed element, with its contentRect
dimensions. -/
inductive ROEntry where
  | wrapper (width height : Int)
  | elem (target : Nat) (width height : Int)
deriving DecidableEq, Repr

/-- The loop body of the ResizeObserver callback (List.tsx lines 211-232):
wrapper entries emit UPDATE_VIEWPORT_SIZE immediately; entries for mounted
items are collected into the parallel `resizedItemSizes` / `resizedItemIndexes`
arrays (size along the scroll axis); entries for unmounted elements are
dropped. Returns (messages emitted inside the loop, sizes, indexes). -/
def roCollect (mounted : List (Nat × Int)) (isHorizontal : Bool) :
    List ROEntry → List Msg × List Int × List Int
  | [] => ([], [], [])
  | ROEntry.wrapper w h :: rest =>
    let (msgs, sizes, indexes) := roCollect mounted isHorizontal rest
    (Msg.updateViewportSize w h :: msgs, sizes, indexes)
  | ROEntry.elem t w h :: rest =>
    match mountedGet mounted t with
    | some index =>
      let (msgs, sizes, indexes) := roCollect mounted isHorizontal rest
      (msgs, (if isHorizontal then w else h) :: sizes, index :: indexes)
    | none => roCollect mounted isHorizontal rest

/-- The full ResizeObserver callback (List.tsx lines 211-241): after the loop,
a single UPDATE_ITEM_SIZES message is pushed when the collected arrays are
nonempty. Returns all messages sent to the store, in order. -/
def roCallback (mounted : List (Nat × Int)) (isHorizontal : Bool)
    (entries : List ROEntry) : List Msg :=
  let (msgs, sizes, indexes) := roCollect mounted isHorizontal entries
  if sizes.isEmpty then msgs else msgs ++ [Msg.updateItemSizes indexes sizes]

/-- The mounted-item resizes contained in a ResizeObserver batch, in order:
(item index, size along the scroll axis) for every entry whose target is a
mounted item. -/
def itemResizes (mounted : List (Nat × Int)) (isHorizontal : Bool)
    (entries : List ROEntry) : List (Int × Int) :=
  entries.filterMap (fun e => match e with
    | ROEntry.wrapper _ _ => none
    | ROEntry.elem t w h =>
      (mountedGet mounted t).map (fun i => (i, if isHorizontal then w else h)))

/-- Recognises an UPDATE_ITEM_SIZES (ITEM_RESIZE) message. -/
def isItemResizeMsg : Msg → Bool
  | Msg.updateItemSizes _ _ => true
  | _ => false

/-- The UPDATE_VIEWPORT_SIZE message an entry produces inside the loop, if any. -/
def viewportMsgOf : ROEntry → Option Msg
  | ROEntry.wrapper w h => some (Msg.updateViewportSize w h)
  | ROEntry.elem _ _ _ => none

theorem roCollect_spec (mounted : List (Nat × Int)) (isHorizontal : Bool)
    (entries : List ROEntry) :
    roCollect mounted isHorizontal entries =
      (entries.filterMap viewportMsgOf,
       (itemResizes mounted isHorizontal entries).map Prod.snd,
       (itemResizes mounted isHorizontal entries).map Prod.fst) := by
  induction entries with
  | nil => simp [roCollect, itemResizes]
  | cons e rest ih =>
    cases e with
    | wrapper w h =>
      simp [roCollect, itemResizes, viewportMsgOf, ih, List.filterMap_cons]
    | elem t w h =>
      cases hm : mountedGet mounted t with
      | none =>
        simp [roCollect, itemResizes, viewportMsgOf, hm, ih, List.filterMap_cons]
      | some i =>
        simp [roCollect, itemResizes, viewportMsgOf, hm, ih, List.filterMap_cons]

theorem viewportMsgs_no_item_resize (entries : List ROEntry) :
    (entries.filterMap viewportMsgOf).filter isItemResizeMsg = [] := by
  induction entries with
  | nil => simp
  | cons e rest ih =>
    cases e with
    | wrapper w h => simpa [viewportMsgOf, List.filterMap_cons, isItemResizeMsg] using ih
    | elem t w h => simpa [viewportMsgOf, List.filterMap_cons] using ih

/-- C6: the ITEM_RESIZE messages a ResizeObserver batch sends to the store are
exactly one UPDATE_ITEM_SIZES message carrying the parallel index and size
arrays of every mounted-item resize in the batch — and no such message at all
when the batch contains no mounted-item resizes. -/
theorem roCallback_batches_item_resizes (mounted : List (Nat × Int)) (isHorizontal : Bool)
    (entries : List ROEntry) :
    (roCallback mounted isHorizontal entries).filter isItemResizeMsg =
      (if itemResizes mounted isHorizontal entries = [] then []
       else [Msg.updateItemSizes
              ((itemResizes mounted isHorizontal entries).map Prod.fst)
              ((itemResizes mounted isHorizontal entries).map Prod.snd)]) := by
  unfold roCallback
  rw [roCollect_spec]
  cases hr : itemResizes mounted isHorizontal entries with
  | nil => simpa [hr] using viewportMsgs_no_item_resize entries
  | cons a l =>
    simp only [hr, List.map_cons, List.isEmpty_cons, Bool.false_eq_true, if_false,
      List.filter_append, viewportMsgs_no_item_resize]
    simp [isItemResizeMsg]

/-- The `Children.map` items mapping (List.tsx lines 399-421). `children` is
the child list, each element marked valid (`true`) or invalid
(`e == null || typeof e === "boolean"`, `false`). The counter `i` starts at
the given value (`-1` in the code) and is incremented for every valid child;
the child is rendered as an `Item` with index `i` exactly when
`startIndexWithMargin ≤ i ≤ endIndexWithMargin`. Returns the list of rendered
item indices, in order. -/
def itemsIndicesAux (s e : Int) : List Bool → Int → List Int
  | [], _ => []
  | c :: rest, i =>
    if c then
      (if i + 1 < s ∨ i + 1 > e then [] else [i + 1]) ++ itemsIndicesAux s e rest (i + 1)
    else itemsIndicesAux s e rest i

/-- The memoized element count (List.tsx lines 124-133): the number of valid
children. -/
def validCount (children : List Bool) : Nat := (children.filter id).length

/-- The indices rendered by the List component on one render pass:
`startIndexWithMargin = max(startIndex - itemMargin, 0)` and
`endIndexWithMargin = min(endIndex + itemMargin, count - 1)` (List.tsx lines
324-325) bound the items mapping, and the whole mapping is withheld from the
inner container when `viewportSize === 0` (line 471, `viewportSize !== 0 && items`). -/
def listMountedIndices (children : List Bool)
    (startIndex endIndex itemMargin viewportSize : Int) : List Int :=
  let count : Int := validCount children
  let startIndexWithMargin := max (startIndex - itemMargin) 0
  let endIndexWithMargin := min (endIndex + itemMargin) (count - 1)
  if viewportSize ≠ 0 then itemsIndicesAux startIndexWithMargin endIndexWithMargin children (-1)
  else []

theorem itemsIndicesAux_mem (s e : Int) (children : List Bool) (i0 j : Int) :
    j ∈ itemsIndicesAux s e children i0 ↔
      (s ≤ j ∧ j ≤ e ∧ i0 + 1 ≤ j ∧ j ≤ i0 + (validCount children : Int)) := by
  induction children generalizing i0 with
  | nil => simp [itemsIndicesAux, validCount]; omega
  | cons c rest ih =>
    cases c with
    | true =>
      have hc : (validCount (true :: rest) : Int) = (validCount rest : Int) + 1 := by
        simp [validCount]
      by_cases hw : i0 + 1 < s ∨ i0 + 1 > e
      · simp only [itemsIndicesAux, if_pos hw, if_true, List.nil_append, ih, hc]
        omega
      · simp only [itemsIndicesAux, if_neg hw, if_true, List.cons_append, List.nil_append,
          List.mem_cons, ih, hc]
        omega
    | false =>
      have hc : (validCount (false :: rest) : Int) = (validCount rest : Int) := by
        simp [validCount]
      simp only [itemsIndicesAux, Bool.false_eq_true, if_false, ih, hc]

/-- C8 counterexample: the claim asserts the mounted indices are exactly the
margin-extended clamped window on every render with `count ≥ 1`, but while the
viewport size reported by the store is 0 the items are withheld from the inner
container (`viewportSize !== 0 && items`), so nothing is mounted: with one
child, `startIndex = endIndex = 0`, `itemMargin = 6` and `viewportSize = 0`,
index 0 lies in the claimed window `[max(0-6,0), min(0+6,0)] = [0,0]` yet is
not mounted. -/
theorem listMounted_claim_counterexample :
    validCount [true] = 1 ∧
    max ((0:Int) - 6) 0 ≤ 0 ∧ (0:Int) ≤ min ((0:Int) + 6) ((validCount [true] : Int) - 1) ∧
    ¬ ((0:Int) ∈ listMountedIndices [true] 0 0 6 0) := by
  decide

/-- C8 (amended): on every render with a nonzero reported viewport size and
item count `n ≥ 1`, the set of mounted item indices is exactly the contiguous
window `[max(startIndex - itemMargin, 0), min(endIndex + itemMargin, n - 1)]`;
in particular every mounted index lies in `[0, n-1]`. -/
theorem listMounted_window (children : List Bool)
    (startIndex endIndex itemMargin viewportSize : Int)
    (hv : viewportSize ≠ 0) (hn : 1 ≤ validCount children) (j : Int) :
    j ∈ listMountedIndices children startIndex endIndex itemMargin viewportSize ↔
      (max (startIndex - itemMargin) 0 ≤ j ∧
       j ≤ min (endIndex + itemMargin) ((validCount children : Int) - 1)) := by
  unfold listMountedIndices
  rw [if_pos hv, itemsIndicesAux_mem]
  omega

theorem listMounted_window_witness :
    ((400:Int) ≠ 0) ∧ 1 ≤ validCount [true, true, true] ∧
    ((0:Int) ∈ listMountedIndices [true, true, true] 0 1 1 400 ↔
      (max ((0:Int) - 1) 0 ≤ 0 ∧
       (0:Int) ≤ min ((1:Int) + 1) ((validCount [true, true, true] : Int) - 1))) :=
  ⟨by decide, by decide,
    listMounted_window [true, true, true] 0 1 1 400 (by decide) (by decide) 0⟩

/-- C10: whenever the viewport size reported by the store is exactly 0, the
List renders no item elements at all, regardless of the visible range, the
margin, or the item count. -/
theorem zero_viewport_renders_no_items (children : List Bool)
    (startIndex endIndex itemMargin : Int) :
    listMountedIndices children startIndex endIndex itemMargin 0 = [] := by
  unfold listMountedIndices
  simp

/-- The mutable state of the onEndReached effect: the `onEndReachedCalledIndex`
ref and (for specification purposes) the number of callback invocations so far. -/
structure EndReachedState where
  calledIndex : Int
  fires : Nat
deriving DecidableEq, Repr

/-- One run of the onEndReached effect (List.tsx lines 368-378), triggered by
an `endIndex` update:

```
const endMargin = count - 1 - endIndex;
if (onEndReached && endMargin <= endThreshold && onEndReachedCalledIndex.current < count) {
  onEndReachedCalledIndex.current = count;
  onEndReached();
}
``` -/
def endReachedStep (hasCallback : Bool) (count endThreshold : Int)
    (st : EndReachedState) (endIndex : Int) : EndReachedState :=
  let endMargin := count - 1 - endIndex
  if hasCallback = true ∧ endMargin ≤ endThreshold ∧ st.calledIndex < count
  then { calledIndex := count, fires := st.fires + 1 }
  else st

/-- A sequence of onEndReached effect runs over successive `endIndex` values,
with the item count held fixed. -/
def runEndReached (hasCallback : Bool) (count endThreshold : Int)
    (st : EndReachedState) (updates : List Int) : EndReachedState :=
  updates.foldl (endReachedStep hasCallback count endThreshold) st

theorem runEndReached_stable (hasCallback : Bool) (count endThreshold : Int)
    (st : EndReachedState) (updates : List Int) (h : count ≤ st.calledIndex) :
    runEndReached hasCallback count endThreshold st updates = st := by
  induction updates with
  | nil => rfl
  | cons u rest ih =>
    unfold runEndReached at *
    rw [List.foldl_cons]
    have hstep : endReachedStep hasCallback count endThreshold st u = st := by
      unfold endReachedStep
      rw [if_neg]
      intro hcond
      omega
    rw [hstep, ih]

/-- C9: for a fixed item count, the onEndReached callback fires at most once no
matter how many endIndex updates run the effect (the guard index is set to the
count before the callback runs, and it blocks every later run at the same
count); moreover once the guard already equals the count, no run at that count
ever fires again. -/
theorem onEndReached_at_most_once (hasCallback : Bool) (count endThreshold ci0 : Int)
    (f : Nat) (updates : List Int) :
    (runEndReached hasCallback count endThreshold ⟨ci0, 0⟩ updates).fires ≤ 1 ∧
    (runEndReached hasCallback count endThreshold ⟨count, f⟩ updates).fires = f := by
  constructor
  · induction updates generalizing ci0 with
    | nil => simp [runEndReached]
    | cons u rest ih =>
      unfold runEndReached
      rw [List.foldl_cons]
      by_cases hcond : hasCallback = true ∧ count - 1 - u ≤ endThreshold ∧ ci0 < count
      · have hstep : endReachedStep hasCallback count endThreshold ⟨ci0, 0⟩ u =
            ⟨count, 1⟩ := by
          unfold endReachedStep
          rw [if_pos hcond]
        rw [hstep]
        have hstable := runEndReached_stable hasCallback count endThreshold ⟨count, 1⟩ rest le_rfl
        unfold runEndReached at hstable
        rw [hstable]
      · have hstep : endReachedStep hasCallback count endThreshold ⟨ci0, 0⟩ u =
            ⟨ci0, 0⟩ := by
          unfold endReachedStep
          rw [if_neg hcond]
        rw [hstep]
        exact ih ci0
  · rw [runEndReached_stable hasCallback count endThreshold ⟨count, f⟩ updates le_rfl]

/-- The style object of the React `Item` component (List.tsx lines 59-80),
as an ordered list of CSS property/value pairs built the way the JSX spreads
build the object (later keys override earlier ones; all keys here are
distinct). `hide` is the value of `store._getIsItemHeightUnCached(index)`,
i.e. whether the store still reports the index as unmeasured. -/
def itemStyleEntries (isHorizontal isReversed : Bool) (offset : Int) (hide : Bool) :
    List (String × String) :=
  [("margin", "0"), ("padding", "0"), ("position", "absolute")]
  ++ (if isHorizontal then
        [("display", "flex"), ("height", "100%"), ("top", "0")]
        ++ (if isReversed then [("right", toString offset)] else [("left", toString offset)])
      else
        [("width", "100%"), ("left", "0")]
        ++ (if isReversed then [("bottom", toString offset)] else [("top", toString offset)]))
  ++ (if hide then [("visibility", "hidden")] else [])

/-- The style object of the Vue `ListItem` component
(src/unnamed/part_000 lines 43-55), with the same conventions; `isRTL` is
`isRTLDocument()`. Unlike the React binding it always writes an explicit
`visibility` value. -/
def listItemStyleEntries (isHorizontal isRTL : Bool) (offset : Int) (hide : Bool) :
    List (String × String) :=
  [("margin", "0"), ("padding", "0"), ("position", "absolute"),
   (if isHorizontal then "height" else "width", "100%"),
   (if isHorizontal then "top" else "left", "0px"),
   (if isHorizontal then (if isRTL then "right" else "left") else "top",
     toString offset ++ "px"),
   ("visibility", if hide then "hidden" else "visible")]
  ++ (if isHorizontal then [("display", "flex")] else [])

/-- JavaScript object semantics: the last write to a key wins. -/
def styleGet (entries : List (String × String)) (key : String) : Option String :=
  (entries.reverse.find? (fun p => p.1 = key)).map (fun p => p.2)

/-- C7: a mounted item is rendered with `visibility: hidden` exactly when the
store reports its index as still unmeasured, and is rendered visible once a
real size is known — in the React `Item` binding (where the `visibility`
property is simply absent, hence the default `visible`, once measured) and in
the Vue `ListItem` binding (which writes `visible` explicitly). -/
theorem item_hidden_iff_unmeasured (unmeasured : Int → Bool) (index : Int)
    (isHorizontal isReversed isRTL : Bool) (offset : Int) :
    (styleGet (itemStyleEntries isHorizontal isReversed offset (unmeasured index))
        "visibility" =
      (if unmeasured index then some "hidden" else none)) ∧
    (styleGet (listItemStyleEntries isHorizontal isRTL offset (unmeasured index))
        "visibility" =
      (if unmeasured index then some "hidden" else some "visible")) := by
  constructor
  · cases hu : unmeasured index <;>
      cases isHorizontal <;> cases isReversed <;>
      simp [itemStyleEntries, styleGet]
  · cases hu : unmeasured index <;>
      cases isHorizontal <;> cases isRTL <;>
      simp [listItemStyleEntries, styleGet]

/-- A DOMRect as used by the IntersectionObserver callback. -/
structure Rect where
  top : Int
  left : Int
  bottom : Int
  right : Int
deriving DecidableEq, Repr

/-- One IntersectionObserverEntry: observed element, timestamp, whether the
transition is into the viewport, and the rectangles used for the anchor
offset. -/
structure IOEntry where
  target : Nat
  time : Int
  isIntersecting : Bool
  boundingClientRect : Rect
  rootBounds : Rect
deriving DecidableEq, Repr

/-- The anchor boundary-offset payload of HANDLE_ITEM_INTERSECTION
(List.tsx lines 284-290). -/
def entryOffset (isHorizontal reverse : Bool) (e : IOEntry) : Int :=
  if isHorizontal then
    if reverse then e.rootBounds.right - e.boundingClientRect.right
    else e.boundingClientRect.left - e.rootBounds.left
  else
    if reverse then e.rootBounds.bottom - e.boundingClientRect.bottom
    else e.boundingClientRect.top - e.rootBounds.top

/-- The tracking state of the observer handle: the key set of the
`viewedIndexes` WeakMap and the `viewedCount` counter. -/
structure IOState where
  viewed : List Nat
  viewedCount : Int
deriving DecidableEq, Repr

/-- `viewedIndexes.set` restricted to the key set: WeakMap.set overwrites, so
the key set gains the key only when it is absent. -/
def insertKey (l : List Nat) (k : Nat) : List Nat :=
  if l.contains k then l else k :: l

/-- `(!latestEntry || latestEntry.time < entry.time)` (List.tsx line 249). -/
def latestAccepts (latest : Option IOEntry) (e : IOEntry) : Bool :=
  match latest with
  | none => true
  | some l => decide (l.time < e.time)

/-- The latestEntry selection step (List.tsx lines 246-253): the entry replaces
the running latest when its timestamp is strictly greater (or none is held yet)
and its target is a mounted item. -/
def latestStep (mounted : List (Nat × Int)) (latest : Option IOEntry) (e : IOEntry) :
    Option IOEntry :=
  if latestAccepts latest e && (mountedGet mounted e.target).isSome then some e else latest

/-- The enter/exit bookkeeping step (List.tsx lines 255-268). On enter of a
mounted target the target is put in `viewedIndexes` and `viewedCount` is
incremented; on exit of a currently viewed target it is removed and the count
decremented. -/
def viewedStep (mounted : List (Nat × Int)) (st : IOState) (e : IOEntry) : IOState :=
  if e.isIntersecting then
    match mountedGet mounted e.target with
    | some _ => { viewed := insertKey st.viewed e.target, viewedCount := st.viewedCount + 1 }
    | none => st
  else
    if st.viewed.contains e.target then
      { viewed := st.viewed.erase e.target, viewedCount := st.viewedCount - 1 }
    else st

/-- One iteration of the `entries.forEach` loop (List.tsx lines 246-269). -/
def ioStep (mounted : List (Nat × Int)) (acc : Option IOEntry × IOState) (e : IOEntry) :
    Option IOEntry × IOState :=
  (latestStep mounted acc.1 e, viewedStep mounted acc.2 e)

/-- The whole `entries.forEach` loop over a batch. -/
def ioScan (mounted : List (Nat × Int)) (entries : List IOEntry) (st0 : IOState) :
    Option IOEntry × IOState :=
  entries.foldl (ioStep mounted) (none, st0)

/-- `syncViewportToScrollPosition` (List.tsx lines 189-200): reads the host
container's native scroll offset along the axis, applies the reverse sign, and
sends it as a HANDLE_SCROLL message. -/
def syncOffsetMsg (nativeLeft nativeTop : Int) (isHorizontal reverse : Bool) : Msg :=
  Msg.handleScroll
    (if isHorizontal then (if reverse then -nativeLeft else nativeLeft)
     else (if reverse then -nativeTop else nativeTop))

/-- The full IntersectionObserver callback (List.tsx lines 243-293). Returns
(messages sent to the store, whether `requestSync()` was invoked, the new
tracking state). When `viewedCount` is 0 after the loop the callback sends the
native offset and schedules the fallback poll; otherwise, if some entry had a
mounted target, it sends one HANDLE_ITEM_INTERSECTION derived from the
selected latest entry. -/
def ioCallback (mounted : List (Nat × Int)) (isHorizontal reverse : Bool)
    (nativeLeft nativeTop : Int) (st0 : IOState) (entries : List IOEntry) :
    List Msg × Bool × IOState :=
  let scan := ioScan mounted entries st0
  if scan.2.viewedCount = 0 then
    ([syncOffsetMsg nativeLeft nativeTop isHorizontal reverse], true, scan.2)
  else
    match scan.1 with
    | some e =>
      match mountedGet mounted e.target with
      | some index =>
        ([Msg.handleItemIntersection index (entryOffset isHorizontal reverse e)], false, scan.2)
      | none => ([], false, scan.2)
    | none => ([], false, scan.2)

/-- Recognises a HANDLE_ITEM_INTERSECTION (anchor update) message. -/
def isIntersectionMsg : Msg → Bool
  | Msg.handleItemIntersection _ _ => true
  | _ => false

theorem ioScan_fst (mounted : List (Nat × Int)) (entries : List IOEntry)
    (acc : Option IOEntry × IOState) :
    (entries.foldl (ioStep mounted) acc).1 = entries.foldl (latestStep mounted) acc.1 := by
  induction entries generalizing acc with
  | nil => rfl
  | cons e rest ih =>
    rw [List.foldl_cons, List.foldl_cons, ih]
    rfl

theorem latestFold_mem (mounted : List (Nat × Int)) (entries : List IOEntry) :
    ∀ (l0 : Option IOEntry) (e : IOEntry),
      entries.foldl (latestStep mounted) l0 = some e →
      l0 = some e ∨ (e ∈ entries ∧ (mountedGet mounted e.target).isSome = true) := by
  induction entries with
  | nil =>
    intro l0 e h
    exact Or.inl h
  | cons a rest ih =>
    intro l0 e h
    rw [List.foldl_cons] at h
    rcases ih (latestStep mounted l0 a) e h with h1 | h2
    · unfold latestStep at h1
      by_cases hc : (latestAccepts l0 a && (mountedGet mounted a.target).isSome) = true
      · rw [if_pos hc] at h1
        have hea : e = a := by injection h1.symm
        subst hea
        exact Or.inr ⟨List.mem_cons_self _ _, (Bool.and_elim_right hc)⟩
      · rw [if_neg hc] at h1
        exact Or.inl h1
    · exact Or.inr ⟨List.mem_cons_of_mem a h2.1, h2.2⟩

theorem latestFold_mono (mounted : List (Nat × Int)) (entries : List IOEntry) :
    ∀ (e0 : IOEntry),
      ∃ e, entries.foldl (latestStep mounted) (some e0) = some e ∧ e0.time ≤ e.time := by
  induction entries with
  | nil =>
    intro e0
    exact ⟨e0, rfl, le_rfl⟩
  | cons a rest ih =>
    intro e0
    rw [List.foldl_cons]
    unfold latestStep
    by_cases hc : (latestAccepts (some e0) a && (mountedGet mounted a.target).isSome) = true
    · rw [if_pos hc]
      obtain ⟨e, he, ht⟩ := ih a
      have h0a : e0.time ≤ a.time := by
        have := Bool.and_elim_left hc
        unfold latestAccepts at this
        have := of_decide_eq_true this
        omega
      exact ⟨e, he, le_trans h0a ht⟩
    · rw [if_neg hc]
      exact ih e0

theorem latestFold_dominates (mounted : List (Nat × Int)) (entries : List IOEntry) :
    ∀ (l0 : Option IOEntry) (e2 : IOEntry), e2 ∈ entries →
      (mountedGet mounted e2.target).isSome = true →
      ∃ e, entries.foldl (latestStep mounted) l0 = some e ∧ e2.time ≤ e.time := by
  induction entries with
  | nil =>
    intro l0 e2 hmem
    exact absurd hmem (List.not_mem_nil e2)
  | cons a rest ih =>
    intro l0 e2 hmem hmounted
    rw [List.foldl_cons]
    rcases List.mem_cons.mp hmem with hea | hrest
    · subst hea
      have hstep : ∃ e0, latestStep mounted l0 e2 = some e0 ∧ e2.time ≤ e0.time := by
        unfold latestStep
        by_cases hc : (latestAccepts l0 e2 && (mountedGet mounted e2.target).isSome) = true
        · exact ⟨e2, by rw [if_pos hc], le_rfl⟩
        · cases l0 with
          | none =>
            exfalso
            apply hc
            simp [latestAccepts, hmounted]
          | some l =>
            refine ⟨l, by rw [if_neg hc], ?_⟩
            have hna : latestAccepts (some l) e2 = false := by
              cases hla : latestAccepts (some l) e2
              · rfl
              · exfalso
                apply hc
                rw [hla, hmounted]
                rfl
            unfold latestAccepts at hna
            have := of_decide_eq_false hna
            omega
      obtain ⟨e0, he0, ht0⟩ := hstep
      rw [he0]
      obtain ⟨e, he, ht⟩ := latestFold_mono mounted rest e0
      exact ⟨e, he, le_trans ht0 ht⟩
    · exact ih (latestStep mounted l0 a) e2 hrest hmounted

/-- C4 counterexample: the claim promises an anchor update for every batch
containing an intersecting entry of a mounted item, but when the same mounted
target enters and then exits within one batch (leaving `viewedCount` at 0),
the callback takes the fallback branch and issues no ITEM_INTERSECTION
message at all: with element 1 mounted at index 5, the batch
[enter(t=10), exit(t=20)] of element 1 produces no anchor update. -/
theorem io_claim_counterexample :
    ((⟨1, 10, true, ⟨0, 0, 40, 40⟩, ⟨0, 0, 40, 40⟩⟩ : IOEntry).isIntersecting = true
      ∧ (mountedGet [((1 : Nat), (5 : Int))] 1).isSome = true)
    ∧ (ioCallback [((1 : Nat), (5 : Int))] false false 0 0 ⟨[], 0⟩
        [⟨1, 10, true, ⟨0, 0, 40, 40⟩, ⟨0, 0, 40, 40⟩⟩,
         ⟨1, 20, false, ⟨0, 0, 40, 40⟩, ⟨0, 0, 40, 40⟩⟩]).1.filter isIntersectionMsg
        = [] := by
  decide

/-- C4 (amended): for every batch after whose processing the tracked
`viewedCount` is nonzero and which contains at least one entry targeting a
mounted item, exactly one anchor update (HANDLE_ITEM_INTERSECTION) is issued,
and it is derived from an entry with the greatest timestamp among the batch
entries whose target is mounted — entries with smaller timestamps never become
the anchor. -/
theorem io_latest_anchor (mounted : List (Nat × Int)) (isHorizontal reverse : Bool)
    (nativeLeft nativeTop : Int) (st0 : IOState) (entries : List IOEntry)
    (hcount : (ioScan mounted entries st0).2.viewedCount ≠ 0)
    (hmounted : ∃ e2, e2 ∈ entries ∧ (mountedGet mounted e2.target).isSome = true) :
    ∃ e index, e ∈ entries ∧ mountedGet mounted e.target = some index ∧
      (∀ e2 ∈ entries, (mountedGet mounted e2.target).isSome = true → e2.time ≤ e.time) ∧
      (ioCallback mounted isHorizontal reverse nativeLeft nativeTop st0 entries).1 =
        [Msg.handleItemIntersection index (entryOffset isHorizontal reverse e)] := by
  obtain ⟨e2, hmem2, hm2⟩ := hmounted
  obtain ⟨e, hfold, -⟩ :=
    latestFold_dominates mounted entries none e2 hmem2 hm2
  have hfst : (ioScan mounted entries st0).1 = some e := by
    unfold ioScan
    rw [ioScan_fst]
    exact hfold
  have hmeme : e ∈ entries ∧ (mountedGet mounted e.target).isSome = true := by
    rcases latestFold_mem mounted entries none e hfold with h | h
    · exact absurd h (by simp)
    · exact h
  obtain ⟨index, hindex⟩ := Option.isSome_iff_exists.mp hmeme.2
  refine ⟨e, index, hmeme.1, hindex, ?_, ?_⟩
  · intro e3 hmem3 hm3
    obtain ⟨e4, hfold4, ht4⟩ :=
      latestFold_dominates mounted entries none e3 hmem3 hm3
    rw [hfold] at hfold4
    injection hfold4 with h4
    rw [h4]
    exact ht4
  · unfold ioCallback
    rw [if_neg hcount]
    have hscan1 : (ioScan mounted entries st0).1 = some e := hfst
    rw [hscan1]
    simp only [hindex]

theorem io_latest_anchor_witness :
    ∃ e index,
      e ∈ ([⟨1, 10, true, ⟨0, 0, 40, 40⟩, ⟨0, 0, 40, 40⟩⟩] : List IOEntry) ∧
      mountedGet [((1 : Nat), (5 : Int))] e.target = some index ∧
      (∀ e2 ∈ ([⟨1, 10, true, ⟨0, 0, 40, 40⟩, ⟨0, 0, 40, 40⟩⟩] : List IOEntry),
        (mountedGet [((1 : Nat), (5 : Int))] e2.target).isSome = true → e2.time ≤ e.time) ∧
      (ioCallback [((1 : Nat), (5 : Int))] false false 0 0 ⟨[], 0⟩
          [⟨1, 10, true, ⟨0, 0, 40, 40⟩, ⟨0, 0, 40, 40⟩⟩]).1 =
        [Msg.handleItemIntersection index (entryOffset false false e)] :=
  io_latest_anchor [((1 : Nat), (5 : Int))] false false 0 0 ⟨[], 0⟩
    [⟨1, 10, true, ⟨0, 0, 40, 40⟩, ⟨0, 0, 40, 40⟩⟩] (by decide)
    ⟨⟨1, 10, true, ⟨0, 0, 40, 40⟩, ⟨0, 0, 40, 40⟩⟩, by decide, by decide⟩

/-- Modelled from the spec: the `debounce` helper lives in src/utils, which is
not included under src/; §5 and §9 of the spec describe it as a debounced,
cancellable fallback-resync timer with a fixed delay. `requestSync`
(List.tsx lines 205-209) wraps

```
if (viewedCount) return;
syncViewportToScrollPosition();
requestSync();
```

in `debounce(..., 200)`, so each scheduled run fires 200ms after it was
requested; a run that still sees `viewedCount == 0` emits the native offset as
a HANDLE_SCROLL message and requests the next run. `counts` lists the value of
`viewedCount` observed at each successive scheduled run; the result lists, for
the runs that re-polled, the delay since the previous request and the message
emitted. -/
def requestSyncFires (nativeLeft nativeTop : Int) (isHorizontal reverse : Bool) :
    List Int → List (Int × Msg)
  | [] => []
  | c :: rest =>
    if c ≠ 0 then []
    else (200, syncOffsetMsg nativeLeft nativeTop isHorizontal reverse) ::
      requestSyncFires nativeLeft nativeTop isHorizontal reverse rest

/-- C5 counterexample: the claim describes the re-polling as a bounded retry
with backoff, but over 100 consecutive runs that all see no intersecting item
the loop re-polls all 100 times (no retry bound is applied) and every delay is
the same fixed 200ms (the interval never backs off). -/
theorem pollLoop_counterexample :
    (requestSyncFires 0 7 false false (List.replicate 100 0)).length = 100 ∧
    ∀ p ∈ requestSyncFires 0 7 false false (List.replicate 100 0), p.1 = 200 := by
  decide

/-- C5 (amended): whenever the set of intersecting mounted items becomes empty
(the tracked `viewedCount` reaches 0 after a batch), the callback immediately
reads the native scroll offset, issues it as a SCROLL message, and schedules
the fallback poll; the poll then re-reads and re-issues the native offset once
per fixed 200ms debounce interval, without a retry bound or backoff, stopping
as soon as a run observes at least one intersecting item again. -/
theorem fallback_sync_and_fixed_polling (mounted : List (Nat × Int))
    (isHorizontal reverse : Bool) (nativeLeft nativeTop : Int) (st0 : IOState)
    (entries : List IOEntry) (zeros : List Int) (c : Int) (rest : List Int)
    (hempty : (ioScan mounted entries st0).2.viewedCount = 0)
    (hz : ∀ x ∈ zeros, x = 0) (hc : c ≠ 0) :
    (ioCallback mounted isHorizontal reverse nativeLeft nativeTop st0 entries =
      ([syncOffsetMsg nativeLeft nativeTop isHorizontal reverse], true,
        (ioScan mounted entries st0).2)) ∧
    requestSyncFires nativeLeft nativeTop isHorizontal reverse (zeros ++ c :: rest) =
      List.replicate zeros.length
        (200, syncOffsetMsg nativeLeft nativeTop isHorizontal reverse) := by
  constructor
  · unfold ioCallback
    rw [if_pos hempty]
  · induction zeros with
    | nil =>
      rw [List.nil_append]
      simp [requestSyncFires, hc]
    | cons z zs ih =>
      have hz0 : z = 0 := hz z (List.mem_cons_self _ _)
      rw [List.cons_append]
      unfold requestSyncFires
      rw [if_neg (by rw [hz0]; exact fun h => h rfl)]
      rw [List.length_cons, List.replicate_succ]
      exact congrArg _ (ih (fun x hx => hz x (List.mem_cons_of_mem z hx)))

theorem fallback_sync_and_fixed_polling_witness :
    (ioCallback [] false false 3 7 ⟨[], 0⟩ [] =
      ([syncOffsetMsg 3 7 false false], true, (ioScan [] [] ⟨[], 0⟩).2)) ∧
    requestSyncFires 3 7 false false ([0, 0] ++ 1 :: []) =
      List.replicate ([0, 0] : List Int).length (200, syncOffsetMsg 3 7 false false) :=
  fallback_sync_and_fixed_polling [] false false 3 7 ⟨[], 0⟩ [] [0, 0] 1 []
    (by decide) (by decide) (by decide)
